import Mathlib

/-!
Verification of the column/schema reconciliation and incremental-sync core of
the `commcare-utilities` repository, checked against its specification.

The repository ships the CLI entry points, PowerShell wrapper scripts and
documentation; the Python implementation of the Name Normalizer, Schema
Reconciler, Property Discoverer and Incremental Scheduler is not part of the
source tree available here, so those components are modelled from the
specification text (each such definition says so in its doc comment).  The
PowerShell wrapper scripts (`initial-sync-to-db.ps1`,
`sync-to-db-with-structure-json.ps1` and the plain sync wrapper) are embedded
from their sources.
-/

namespace CommcareUtilities

/-! ### Name Normalizer (spec section 4.1) -/

/-- A character allowed in a SQL-safe identifier: `[a-z0-9_]`. -/
def identChar (c : Char) : Bool :=
  (decide ('a' ≤ c) && decide (c ≤ 'z')) ||
  (decide ('0' ≤ c) && decide (c ≤ '9')) || decide (c = '_')

/-- A decimal digit character `[0-9]`. -/
def digitChar (c : Char) : Bool :=
  decide ('0' ≤ c) && decide (c ≤ '9')

/-- Collapse every run of consecutive underscores to a single underscore. -/
def collapseUnderscores : List Char → List Char
  | [] => []
  | [c] => [c]
  | c :: d :: rest =>
    if c = '_' && d = '_' then collapseUnderscores (d :: rest)
    else c :: collapseUnderscores (d :: rest)

/-- Prefix an underscore when the first character is a digit (SQL
identifiers cannot start with a digit). -/
def prefixDigit : List Char → List Char
  | [] => []
  | c :: rest => if digitChar c then '_' :: c :: rest else c :: rest

/-- Modelled from the spec: the Name Normalizer (`normalize(raw) -> string`,
section 4.1), whose Python implementation is not in the source tree.
Steps, in the spec's order: lowercase; replace any character outside
`[a-z0-9_]` with `_`; collapse consecutive underscores; prefix `_` when the
first character is a digit; truncate to the configured maximum identifier
length. -/
def normalize (maxLen : Nat) (raw : String) : String :=
  String.mk ((prefixDigit (collapseUnderscores
    ((raw.data.map Char.toLower).map
      (fun c => if identChar c then c else '_')))).take maxLen)

/-- The identifier pattern required of a normalizer output, on a list of
characters: nonempty, first character in `[a-z_]`, all characters in
`[a-z0-9_]` (the regex `^[a-z_][a-z0-9_]*$`). -/
def validIdentChars : List Char → Bool
  | [] => false
  | c :: rest => identChar c && !digitChar c && rest.all identChar

/-- The identifier pattern `^[a-z_][a-z0-9_]*$` on a string. -/
def validIdent (s : String) : Bool :=
  validIdentChars s.data

/-! ### Deterministic decimal rendering for collision suffixes -/

/-- Little-endian decimal digits of a natural number; the first argument is
fuel, always called with `fuel ≥ n` so the recursion is structural. -/
def decDigitsAux : Nat → Nat → List Nat
  | 0, _ => []
  | fuel + 1, n => if n = 0 then [] else n % 10 :: decDigitsAux fuel (n / 10)

/-- Little-endian decimal digits of a natural number. -/
def decDigits (n : Nat) : List Nat :=
  decDigitsAux n n

/-- The character for one decimal digit. -/
def decDigitToChar : Nat → Char
  | 0 => '0' | 1 => '1' | 2 => '2' | 3 => '3' | 4 => '4'
  | 5 => '5' | 6 => '6' | 7 => '7' | 8 => '8' | _ => '9'

/-- The value of a little-endian decimal digit list. -/
def decValue : List Nat → Nat
  | [] => 0
  | d :: rest => d + 10 * decValue rest

/-- Decimal string representation of a natural number. -/
def natToStr (n : Nat) : String :=
  if n = 0 then "0" else String.mk ((decDigits n).reverse.map decDigitToChar)

/-- The disambiguating suffix candidate for ordinal `k`: `base_k`. -/
def natSuffix (base : String) (k : Nat) : String :=
  base ++ "_" ++ natToStr k

/-- Modelled from the spec: deterministic search for the first free suffixed
candidate `base_k`, `k = 2, 3, ...`; `fuel` bounds the search. -/
def freeSuffix (taken : List String) (base : String) : Nat → Nat → String
  | 0, k => natSuffix base k
  | fuel + 1, k =>
    if natSuffix base k ∈ taken then freeSuffix taken base fuel (k + 1)
    else natSuffix base k

/-- Modelled from the spec: collision resolution for target column names
(spec sections 3 and 4.3), whose Python implementation is not in the source
tree.  If the normalized base name is not yet taken it is used as is;
otherwise a deterministic disambiguating suffix `_2`, `_3`, ... is appended,
taking the first candidate not already in use (a stable ordinal, so the same
observation order reproduces the same suffixes). -/
def resolveCollision (taken : List String) (base : String) : String :=
  if base ∈ taken then freeSuffix taken base taken.length 2 else base

/-! ### Data model (spec section 3) -/

/-- Modelled from the spec: one `(case_type, source_property) → target_column`
association (spec section 3), whose Python implementation is not in the
source tree.  Timestamps are abstracted as naturals. -/
structure ColumnMapping where
  source_property : String
  target_column : String
  first_observed_at : Nat
  active : Bool
deriving DecidableEq, Repr

/-- Modelled from the spec: the persisted set of all `ColumnMapping` entities
for one (project, case_type), plus an `as_of` timestamp (spec section 3).
The list order is the stable first-observed order. -/
structure SchemaState where
  columns : List ColumnMapping
  as_of : Nat
deriving DecidableEq, Repr

/-! ### Schema Reconciler (spec section 4.3) -/

/-- Modelled from the spec: step 2 of `reconcile` — an existing mapping whose
`source_property` is absent from `observed` is marked `active = false`;
a re-observed mapping is reactivated, never re-added. -/
def setActive (observed : List String) (m : ColumnMapping) : ColumnMapping :=
  { m with active := decide (m.source_property ∈ observed) }

/-- Modelled from the spec: step 1 of `reconcile` — for every observed name
not already present (by `source_property`), normalize it, resolve collisions
deterministically against the target columns already in use, and append a new
mapping with `active = true` and `first_observed_at = now`.  Returns the
extended column list and the list of newly added source properties. -/
def addNew (maxLen now : Nat) :
    List ColumnMapping → List String → List ColumnMapping × List String
  | cols, [] => (cols, [])
  | cols, name :: rest =>
    if name ∈ cols.map ColumnMapping.source_property then
      addNew maxLen now cols rest
    else
      let tgt := resolveCollision (cols.map ColumnMapping.target_column)
        (normalize maxLen name)
      let res := addNew maxLen now (cols ++ [⟨name, tgt, now, true⟩]) rest
      (res.1, name :: res.2)

/-- Modelled from the spec: the Schema Reconciler
(`reconcile(existing, observed) -> (updated, added)`, spec section 4.3),
whose Python implementation is not in the source tree.  The ambient clock and
the configured maximum identifier length are explicit parameters; `observed`
is the observed set in observation order. -/
def reconcile (maxLen now : Nat) (existing : SchemaState)
    (observed : List String) : SchemaState × List String :=
  (⟨(addNew maxLen now (existing.columns.map (setActive observed)) observed).1, now⟩,
   (addNew maxLen now (existing.columns.map (setActive observed)) observed).2)

/-- A sequence of `reconcile` calls, each feeding the updated state of the
previous one. -/
def reconcileSeq (maxLen now : Nat) (S : SchemaState) :
    List (List String) → SchemaState
  | [] => S
  | A :: rest => reconcileSeq maxLen now (reconcile maxLen now S A).1 rest

/-! ### Property Discoverer (spec section 4.2) -/

/-- Modelled from the spec: a half-open time range `[since, until)`;
a missing bound means unbounded (spec section 3, `DiscoveryWindow`). -/
structure DiscoveryWindow where
  since : Option Nat
  untilEx : Option Nat
deriving DecidableEq, Repr

/-- Whether a record timestamp falls inside a `DiscoveryWindow`
(`since` inclusive, `untilEx` exclusive). -/
def inWindow (w : DiscoveryWindow) (t : Nat) : Bool :=
  (match w.since with
   | none => true
   | some s => decide (s ≤ t)) &&
  (match w.untilEx with
   | none => true
   | some u => decide (t < u))

/-- A record returned by the paginated case/property feed: a timestamp and a
mapping of property name to value. -/
structure CaseRecord where
  observed_on : Nat
  props : List (String × String)
deriving DecidableEq, Repr

/-- A fatal discovery error: the retry bound for a page fetch was exhausted
(spec section 5). -/
inductive DiscoveryError where
  | transientExhausted
deriving DecidableEq, Repr

/-- Modelled from the spec: the Property Discoverer (spec section 4.2), whose
Python implementation is not in the source tree.  Pages are followed to
exhaustion; a page given as `none` stands for a fetch whose bounded retries
were exhausted and makes the whole run fail; otherwise the property names of
every record inside the window are collected.  Zero matching records yield
`Except.ok []`, not an error. -/
def discoverProperties (w : DiscoveryWindow) :
    List (Option (List CaseRecord)) → Except DiscoveryError (List String)
  | [] => Except.ok []
  | none :: _ => Except.error DiscoveryError.transientExhausted
  | some page :: rest =>
    match discoverProperties w rest with
    | Except.error e => Except.error e
    | Except.ok names =>
      Except.ok
        ((((page.filter (fun r => inWindow w r.observed_on)).map
          (fun r => r.props.map Prod.fst)).flatten) ++ names)

/-! ### Incremental Scheduler (spec sections 4.5 and 7) -/

/-- Modelled from the spec: the plan the Incremental Scheduler returns
(spec section 4.5): whether to run discovery, the export window, and the
cached schema state reused when discovery is skipped. -/
structure RunPlan where
  run_discovery : Bool
  window : DiscoveryWindow
  cached_mapping : Option SchemaState

/-- Modelled from the spec: the fatal error taxonomy entry for an
explicitly-supplied existing-schema file that is missing or unparseable
(spec section 7, `CacheReadError`). -/
inductive SyncError where
  | cacheReadError

/-- Modelled from the spec: the Incremental Scheduler policy
(`plan(previous_state_path, since, until)`, spec sections 4.5 and 7), whose
Python implementation is not in the source tree.  `previous_state` is `none`
when no cache path was supplied, `some none` when a path was supplied but the
file is missing or unparseable (fatal `CacheReadError`, no silent fallback to
full discovery, spec section 7), and `some (some cache)` when the cache was
read: then discovery is skipped unless forced, the cached mapping is reused
unchanged, and the export window is exactly the supplied bounds. -/
def plan (previous_state : Option (Option SchemaState)) (force_full : Bool)
    (since untilEx : Option Nat) : Except SyncError RunPlan :=
  match previous_state with
  | none => Except.ok ⟨true, ⟨since, untilEx⟩, none⟩
  | some none => Except.error SyncError.cacheReadError
  | some (some cache) =>
    if force_full then Except.ok ⟨true, ⟨since, untilEx⟩, none⟩
    else Except.ok ⟨false, ⟨since, untilEx⟩, some cache⟩

/-- Modelled from the spec: the process exit code of a run that ended with
the given result — 0 on success, non-zero on any fatal error
(spec section 6). -/
def exitCode : Except SyncError RunPlan → Nat
  | Except.error _ => 1
  | Except.ok _ => 0

/-! ### PowerShell wrapper scripts

Embedded from `powershell/initial-sync-to-db.ps1`, the
`sync-to-db-with-structure-json.ps1` script and the plain sync wrapper in the
source tree.  An environment is a partial map from variable names to values.
-/

/-- An environment: variable name to optional value. -/
def Env : Type := String → Option String

/-- `$env:NAME` interpolated into an argument: the value, or the empty string
when the variable is unset. -/
def envStr (env : Env) (name : String) : String :=
  (env name).getD ""

/-- Update one environment variable. -/
def setEnv (env : Env) (name v : String) : Env :=
  fun m => if m = name then some v else env m

/-- The environment in which no variable is set. -/
def emptyEnv : Env := fun _ => none

/-- PowerShell `Test-Path` on an entry of a `$RequiredVars` list: an
`env:NAME` provider path tests whether the variable `NAME` is set; any other
literal string (such as the quoted `$env:CC_REPO_PATH` entry in the plain
sync wrapper) is not an `env:` provider path and never exists. -/
def testPathEnvVar (env : Env) (entry : String) : Bool :=
  if ("env:".data).isPrefixOf entry.data then
    (env (String.mk (entry.data.drop 4))).isSome
  else false

/-- The number of required variables the `foreach` loop counts as missing. -/
def missingVarCount (env : Env) (required : List String) : Nat :=
  (required.filter (fun v => !testPathEnvVar env v)).length

/-- A value produced by a PowerShell pipeline. -/
inductive PSValue where
  | int (n : Int)
  | str (s : String)
  | nullValue
deriving DecidableEq, Repr

/-- PowerShell truthiness of a pipeline's output: no output and `$null` are
falsy, a number is truthy iff nonzero, a string iff nonempty, and multiple
outputs are truthy. -/
def psTruthy : List PSValue → Bool
  | [] => false
  | [PSValue.int n] => decide (n ≠ 0)
  | [PSValue.str s] => decide (s ≠ "")
  | [PSValue.nullValue] => false
  | _ :: _ :: _ => true

/-- A PowerShell pipeline as it appears inside an `if` condition: either a
bare expression, or an expression followed by `> file`.  In PowerShell `>`
is output redirection, not numeric comparison (that is `-gt`), so
`$MissingVars > 0` is the second form with target file `"0"`. -/
inductive PSPipeline where
  | value (v : PSValue)
  | redirected (v : PSValue) (target : String)

/-- The output a pipeline delivers to the enclosing condition: a redirected
pipeline writes its value to the target file and delivers nothing. -/
def PSPipeline.output : PSPipeline → List PSValue
  | PSPipeline.value v => [v]
  | PSPipeline.redirected _ _ => []

/-- The result of running one wrapper script. -/
inductive ScriptResult where
  | exited (code : Nat)
  | ranSync (args : List (String × String))
deriving DecidableEq, Repr

/-- A wrapper script, as all three PowerShell scripts are structured: count
the unset required variables, then run
`if ($MissingVars > 0) { ...; exit 1 }` — whose condition is the redirected
pipeline `$MissingVars > 0` — and otherwise invoke
`sync-commcare-app-to-db` with the given arguments. -/
def runWrapper (required : List String)
    (mkArgs : Env → List (String × String)) (env : Env) : ScriptResult :=
  let missing := missingVarCount env required
  if psTruthy (PSPipeline.output
      (PSPipeline.redirected (PSValue.int missing) "0")) then
    ScriptResult.exited 1
  else
    ScriptResult.ranSync (mkArgs env)

/-- `$Script:RequiredVars` of `powershell/initial-sync-to-db.ps1`. -/
def initialSyncRequiredVars : List String :=
  ["env:CC_USER_NAME", "env:CC_API_KEY", "env:CC_PROJECT_NAME", "env:CC_APP_ID",
   "env:CC_DB_URL", "env:CC_APP_STRUCTURE_FOLDER_PATH", "env:CC_REPO_PATH",
   "env:CC_SINCE_DAYS"]

/-- The `sync-commcare-app-to-db.exe` invocation of
`powershell/initial-sync-to-db.ps1`; `sinceDate` is the precomputed
`$script:SinceDateString`. -/
def initialSyncArgs (sinceDate : String) (env : Env) :
    List (String × String) :=
  [("--username", envStr env "CC_USER_NAME"),
   ("--api-key", envStr env "CC_API_KEY"),
   ("--project", envStr env "CC_PROJECT_NAME"),
   ("--app-id", envStr env "CC_APP_ID"),
   ("--db-url", envStr env "CC_DB_URL"),
   ("--app-structure-json-save-folder-path",
     envStr env "CC_APP_STRUCTURE_FOLDER_PATH"),
   ("--since", sinceDate)]

/-- `powershell/initial-sync-to-db.ps1`. -/
def runInitialSync (env : Env) (sinceDate : String) : ScriptResult :=
  runWrapper initialSyncRequiredVars (initialSyncArgs sinceDate) env

/-- `$Script:RequiredVars` of the structure-JSON scheduled-task script
(`sync-to-db-with-structure-json.ps1`). -/
def structureJsonRequiredVars : List String :=
  ["env:CC_USER", "env:CC_API_KEY", "env:CC_PROJECT", "env:CC_APP_ID",
   "env:CC_BACKUP_DB_URL", "env:CC_APP_STRUCTURE_FILE_PATH",
   "env:CC_SINCE_DAYS", "env:CC_REPO_PATH"]

/-- The `sync-commcare-app-to-db` invocation of the structure-JSON
scheduled-task script: `--existing-app-structure-json` is passed
`$env:CC_APP_STRUCTURE_FOLDER_PATH` (a folder path), not
`$env:CC_APP_STRUCTURE_FILE_PATH`. -/
def structureJsonSyncArgs (sinceDate : String) (env : Env) :
    List (String × String) :=
  [("--username", envStr env "CC_USER"),
   ("--api-key", envStr env "CC_API_KEY"),
   ("--project", envStr env "CC_PROJECT_NAME"),
   ("--app-id", envStr env "CC_APP_ID"),
   ("--db-url", envStr env "CC_DB_URL"),
   ("--existing-app-structure-json",
     envStr env "CC_APP_STRUCTURE_FOLDER_PATH"),
   ("--since", sinceDate)]

/-- The structure-JSON scheduled-task script. -/
def runStructureJsonSync (env : Env) (sinceDate : String) : ScriptResult :=
  runWrapper structureJsonRequiredVars (structureJsonSyncArgs sinceDate) env

/-- `$RequiredVars` of the plain sync wrapper (the third PowerShell script),
including its literal `$env:CC_REPO_PATH` entry, quoted in the source so
that it is a plain string rather than an `env:` provider path. -/
def plainSyncRequiredVars : List String :=
  ["env:CC_USER", "env:CC_API_KEY", "env:CC_PROJECT", "env:CC_APP_ID",
   "env:CC_BACKUP_DB_URL", "env:CC_APP_STRUCTURE_SAVE_FOLDER",
   "$env:CC_REPO_PATH"]

/-- The `sync-commcare-app-to-db` invocation of the plain sync wrapper. -/
def plainSyncArgs (env : Env) : List (String × String) :=
  [("--username", envStr env "CC_USER"),
   ("--api-key", envStr env "CC_API_KEY"),
   ("--project", envStr env "CC_PROJECT_NAME"),
   ("--app-id", envStr env "CC_APP_ID"),
   ("--db-url", envStr env "CC_DB_URL"),
   ("--app-structure-json-save-folder-path",
     envStr env "CC_APP_STRUCTURE_FOLDER_PATH")]

/-- The plain sync wrapper script. -/
def runPlainSync (env : Env) : ScriptResult :=
  runWrapper plainSyncRequiredVars plainSyncArgs env

/-! ### Concrete example values used in witnesses -/

/-- A schema state with two active mappings, `foo` and `bar`. -/
def exampleState : SchemaState :=
  ⟨[⟨"foo", "foo", 1, true⟩, ⟨"bar", "bar", 1, true⟩], 1⟩

/-- A schema state whose single mapping `foo` was previously deprecated. -/
def inactiveFooState : SchemaState :=
  ⟨[⟨"foo", "foo", 3, false⟩], 5⟩

/-! ### Lemmas about the Name Normalizer -/

theorem collapseUnderscores_sublist (l : List Char) :
    (collapseUnderscores l).Sublist l := by
  induction l with
  | nil => simp [collapseUnderscores]
  | cons c tl ih =>
    cases tl with
    | nil => simp [collapseUnderscores]
    | cons d rest =>
      cases hb : (decide (c = '_') && decide (d = '_')) with
      | true =>
        simp only [collapseUnderscores, hb, if_true]
        exact ih.cons c
      | false =>
        simp only [collapseUnderscores, hb, Bool.false_eq_true, if_false]
        exact ih.cons₂ c

theorem collapseUnderscores_ne_nil (l : List Char) (h : l ≠ []) :
    collapseUnderscores l ≠ [] := by
  induction l with
  | nil => exact absurd rfl h
  | cons c tl ih =>
    cases tl with
    | nil => simp [collapseUnderscores]
    | cons d rest =>
      cases hb : (decide (c = '_') && decide (d = '_')) with
      | true =>
        simp only [collapseUnderscores, hb, if_true]
        exact ih (by simp)
      | false =>
        simp only [collapseUnderscores, hb, Bool.false_eq_true, if_false]
        simp

theorem validIdent_normalize (maxLen : Nat) (raw : String)
    (hraw : raw ≠ "") (hlen : 1 ≤ maxLen) :
    validIdent (normalize maxLen raw) = true := by
  have hdata : raw.data ≠ [] := by
    intro h
    apply hraw
    cases raw with
    | mk d => cases h; rfl
  obtain ⟨k, rfl⟩ : ∃ k, maxLen = k + 1 := ⟨maxLen - 1, by omega⟩
  show validIdentChars ((prefixDigit (collapseUnderscores
    ((raw.data.map Char.toLower).map
      (fun c => if identChar c then c else '_')))).take (k + 1)) = true
  set replaced :=
    (raw.data.map Char.toLower).map (fun c => if identChar c then c else '_')
    with hrep
  have hall : ∀ c ∈ replaced, identChar c = true := by
    intro c hc
    rcases List.mem_map.1 hc with ⟨a, _, rfl⟩
    by_cases h : identChar a = true
    · simp [h]
    · simp only [h]
      simp only [Bool.not_eq_true] at h
      rw [if_neg (by simp [h])]
      decide
  have hrep_ne : replaced ≠ [] := by
    simp only [hrep, ne_eq, List.map_eq_nil_iff]
    exact hdata
  have hcoll_all : ∀ c ∈ collapseUnderscores replaced, identChar c = true :=
    fun c hc => hall c ((collapseUnderscores_sublist replaced).subset hc)
  obtain ⟨c, rest, hc⟩ : ∃ c rest, collapseUnderscores replaced = c :: rest := by
    cases hcoll : collapseUnderscores replaced with
    | nil => exact absurd hcoll (collapseUnderscores_ne_nil replaced hrep_ne)
    | cons c rest => exact ⟨c, rest, rfl⟩
  rw [hc]
  simp only [prefixDigit]
  have hrest_all : ∀ x ∈ rest, identChar x = true := by
    intro x hx
    exact hcoll_all x (hc ▸ List.mem_cons_of_mem c hx)
  by_cases hd : digitChar c = true
  · rw [if_pos hd]
    simp only [List.take_succ_cons, validIdentChars]
    have htake : ∀ x ∈ (c :: rest).take k, identChar x = true := by
      intro x hx
      rcases List.mem_cons.1 (List.take_subset k (c :: rest) hx) with rfl | hx'
      · exact hcoll_all x (hc ▸ List.mem_cons_self x rest)
      · exact hrest_all x hx'
    simp only [Bool.and_eq_true, Bool.not_eq_true', List.all_eq_true]
    exact ⟨⟨by decide, by decide⟩, htake⟩
  · rw [if_neg hd]
    simp only [List.take_succ_cons, validIdentChars]
    have hcid : identChar c = true := hcoll_all c (hc ▸ List.mem_cons_self c rest)
    have htake : ∀ x ∈ rest.take k, identChar x = true :=
      fun x hx => hrest_all x (List.take_subset k rest hx)
    simp only [Bool.not_eq_true] at hd
    simp only [Bool.and_eq_true, Bool.not_eq_true', List.all_eq_true]
    exact ⟨⟨hcid, hd⟩, htake⟩

theorem normalize_length_le (maxLen : Nat) (raw : String) :
    (normalize maxLen raw).length ≤ maxLen := by
  show (String.mk _).length ≤ maxLen
  simp only [String.length, List.length_take]
  omega

/-! ### Lemmas about the decimal suffix rendering -/

theorem decValue_decDigitsAux (fuel : Nat) :
    ∀ n, n ≤ fuel → decValue (decDigitsAux fuel n) = n := by
  induction fuel with
  | zero =>
    intro n hn
    obtain rfl : n = 0 := by omega
    rfl
  | succ fuel ih =>
    intro n hn
    by_cases hz : n = 0
    · simp [decDigitsAux, hz, decValue]
    · have hdiv : n / 10 < n := Nat.div_lt_self (Nat.pos_of_ne_zero hz) (by omega)
      simp only [decDigitsAux, hz, if_false, decValue]
      rw [ih (n / 10) (by omega)]
      exact Nat.mod_add_div n 10

theorem decDigits_inj (a b : Nat) (h : decDigits a = decDigits b) : a = b := by
  have ha := decValue_decDigitsAux a a le_rfl
  have hb := decValue_decDigitsAux b b le_rfl
  unfold decDigits at h
  rw [h] at ha
  omega

theorem decDigitsAux_lt_ten (fuel : Nat) :
    ∀ n, ∀ d ∈ decDigitsAux fuel n, d < 10 := by
  induction fuel with
  | zero => intro n d hd; simp [decDigitsAux] at hd
  | succ fuel ih =>
    intro n d hd
    by_cases hz : n = 0
    · simp [decDigitsAux, hz] at hd
    · simp only [decDigitsAux, hz, if_false, List.mem_cons] at hd
      rcases hd with rfl | hd
      · exact Nat.mod_lt n (by omega)
      · exact ih (n / 10) d hd

theorem decDigitToChar_inj :
    ∀ d1 < 10, ∀ d2 < 10, decDigitToChar d1 = decDigitToChar d2 → d1 = d2 := by
  decide

theorem map_decDigitToChar_inj :
    ∀ l1 l2 : List Nat, (∀ d ∈ l1, d < 10) → (∀ d ∈ l2, d < 10) →
      l1.map decDigitToChar = l2.map decDigitToChar → l1 = l2 := by
  intro l1
  induction l1 with
  | nil =>
    intro l2 _ _ h
    cases l2 with
    | nil => rfl
    | cons e tl2 => simp at h
  | cons d tl ih =>
    intro l2 h1 h2 h
    cases l2 with
    | nil => simp at h
    | cons e tl2 =>
      simp only [List.map_cons, List.cons.injEq] at h
      have hde : d = e :=
        decDigitToChar_inj d (h1 d (List.mem_cons_self d tl)) e
          (h2 e (List.mem_cons_self e tl2)) h.1
      have htl : tl = tl2 :=
        ih tl2 (fun x hx => h1 x (List.mem_cons_of_mem d hx))
          (fun x hx => h2 x (List.mem_cons_of_mem e hx)) h.2
      rw [hde, htl]

theorem natToStr_ne_zero_digits (b : Nat) (hb : b ≠ 0) :
    ((decDigits b).reverse.map decDigitToChar) ≠ ['0'] := by
  intro h
  have hval := decValue_decDigitsAux b b le_rfl
  have hlt := decDigitsAux_lt_ten b b
  cases hrev : (decDigits b).reverse with
  | nil => rw [hrev] at h; simp at h
  | cons d tail =>
    rw [hrev] at h
    simp only [List.map_cons, List.cons.injEq, List.map_eq_nil_iff] at h
    obtain ⟨hd0, htail⟩ := h
    subst htail
    have hdig : decDigits b = [d] := by
      have := congrArg List.reverse hrev
      simpa using this
    have hdle : d < 10 := hlt d (by rw [show decDigitsAux b b = decDigits b from rfl, hdig]; simp)
    have : d = 0 := decDigitToChar_inj d hdle 0 (by omega) hd0
    subst this
    rw [show decDigitsAux b b = decDigits b from rfl, hdig] at hval
    simp [decValue] at hval
    omega

theorem natToStr_inj (a b : Nat) (h : natToStr a = natToStr b) : a = b := by
  unfold natToStr at h
  by_cases ha : a = 0 <;> by_cases hb : b = 0
  · omega
  · rw [if_pos ha, if_neg hb] at h
    have hd := congrArg String.data h
    have : ((decDigits b).reverse.map decDigitToChar) = ['0'] := by
      simpa using hd.symm
    exact absurd this (natToStr_ne_zero_digits b hb)
  · rw [if_neg ha, if_pos hb] at h
    have hd := congrArg String.data h
    have : ((decDigits a).reverse.map decDigitToChar) = ['0'] := by
      simpa using hd
    exact absurd this (natToStr_ne_zero_digits a ha)
  · rw [if_neg ha, if_neg hb] at h
    have hd := congrArg String.data h
    simp only [String.mk] at hd
    have hmap := map_decDigitToChar_inj (decDigits a).reverse (decDigits b).reverse
      (fun d hdm => decDigitsAux_lt_ten a a d (List.mem_reverse.1 hdm))
      (fun d hdm => decDigitsAux_lt_ten b b d (List.mem_reverse.1 hdm)) hd
    have : decDigits a = decDigits b := by
      have := congrArg List.reverse hmap
      simpa using this
    exact decDigits_inj a b this

theorem natSuffix_inj (base : String) (k1 k2 : Nat)
    (h : natSuffix base k1 = natSuffix base k2) : k1 = k2 := by
  unfold natSuffix at h
  apply natToStr_inj
  have hd := congrArg String.data h
  simp only [String.data_append] at hd
  exact String.ext (List.append_cancel_left hd)

/-! ### Collision resolution never reuses a taken target -/

theorem exists_natSuffix_not_mem (taken : List String) (base : String) :
    ∃ j, j ≤ taken.length ∧ natSuffix base (2 + j) ∉ taken := by
  by_contra hall
  push_neg at hall
  have hnd : ((List.range (taken.length + 1)).map
      (fun j => natSuffix base (2 + j))).Nodup := by
    refine (List.nodup_range _).map_on ?_
    intro x _ y _ hxy
    have := natSuffix_inj base (2 + x) (2 + y) hxy
    omega
  have hsub : ((List.range (taken.length + 1)).map
      (fun j => natSuffix base (2 + j))) ⊆ taken := by
    intro s hs
    rcases List.mem_map.1 hs with ⟨j, hj, rfl⟩
    have hj' : j < taken.length + 1 := List.mem_range.1 hj
    exact hall j (by omega)
  have hle := (List.subperm_of_subset hnd hsub).length_le
  simp only [List.length_map, List.length_range] at hle
  omega

theorem freeSuffix_not_mem (taken : List String) (base : String) :
    ∀ fuel k, (∃ j, j ≤ fuel ∧ natSuffix base (k + j) ∉ taken) →
      freeSuffix taken base fuel k ∉ taken := by
  intro fuel
  induction fuel with
  | zero =>
    rintro k ⟨j, hj, hfree⟩
    obtain rfl : j = 0 := by omega
    simpa [freeSuffix] using hfree
  | succ fuel ih =>
    rintro k ⟨j, hj, hfree⟩
    by_cases hmem : natSuffix base k ∈ taken
    · rw [freeSuffix, if_pos hmem]
      apply ih
      cases j with
      | zero => simp at hfree; exact absurd hmem hfree
      | succ j' =>
        refine ⟨j', by omega, ?_⟩
        have harith : k + (j' + 1) = k + 1 + j' := by omega
        rwa [harith] at hfree
    · rw [freeSuffix, if_neg hmem]
      exact hmem

theorem resolveCollision_not_mem (taken : List String) (base : String) :
    resolveCollision taken base ∉ taken := by
  unfold resolveCollision
  by_cases h : base ∈ taken
  · rw [if_pos h]
    apply freeSuffix_not_mem
    exact exists_natSuffix_not_mem taken base
  · rw [if_neg h]
    exact h

/-! ### Lemmas about `addNew` -/

theorem addNew_extends (maxLen now : Nat) :
    ∀ (names : List String) (cols : List ColumnMapping),
      ∃ ext, (addNew maxLen now cols names).1 = cols ++ ext ∧
        ∀ m ∈ ext, m.first_observed_at = now ∧ m.active = true ∧
          m.source_property ∈ names := by
  intro names
  induction names with
  | nil =>
    intro cols
    exact ⟨[], by simp [addNew], by simp⟩
  | cons name rest ih =>
    intro cols
    by_cases hmem : name ∈ cols.map ColumnMapping.source_property
    · obtain ⟨ext, hext, hprops⟩ := ih cols
      refine ⟨ext, ?_, ?_⟩
      · simp only [addNew, if_pos hmem]
        exact hext
      · intro m hm
        obtain ⟨h1, h2, h3⟩ := hprops m hm
        exact ⟨h1, h2, List.mem_cons_of_mem name h3⟩
    · obtain ⟨ext, hext, hprops⟩ :=
        ih (cols ++ [⟨name, resolveCollision (cols.map ColumnMapping.target_column)
          (normalize maxLen name), now, true⟩])
      refine ⟨⟨name, resolveCollision (cols.map ColumnMapping.target_column)
        (normalize maxLen name), now, true⟩ :: ext, ?_, ?_⟩
      · simp only [addNew, if_neg hmem]
        rw [hext]
        simp
      · intro m hm
        rcases List.mem_cons.1 hm with rfl | hm'
        · exact ⟨rfl, rfl, List.mem_cons_self _ _⟩
        · obtain ⟨h1, h2, h3⟩ := hprops m hm'
          exact ⟨h1, h2, List.mem_cons_of_mem name h3⟩

theorem addNew_sp_monotone (maxLen now : Nat) (names : List String)
    (cols : List ColumnMapping) (p : String)
    (hp : p ∈ cols.map ColumnMapping.source_property) :
    p ∈ (addNew maxLen now cols names).1.map ColumnMapping.source_property := by
  obtain ⟨ext, hext, -⟩ := addNew_extends maxLen now names cols
  rw [hext, List.map_append]
  exact List.mem_append_left _ hp

theorem mem_addNew_self (maxLen now : Nat) (names : List String)
    (cols : List ColumnMapping) (m : ColumnMapping) (hm : m ∈ cols) :
    m ∈ (addNew maxLen now cols names).1 := by
  obtain ⟨ext, hext, -⟩ := addNew_extends maxLen now names cols
  rw [hext]
  exact List.mem_append_left _ hm

theorem mem_addNew_cases (maxLen now : Nat) (names : List String)
    (cols : List ColumnMapping) (m : ColumnMapping)
    (hm : m ∈ (addNew maxLen now cols names).1) :
    m ∈ cols ∨ (m.source_property ∈ names ∧ m.active = true) := by
  obtain ⟨ext, hext, hprops⟩ := addNew_extends maxLen now names cols
  rw [hext] at hm
  rcases List.mem_append.1 hm with h | h
  · exact Or.inl h
  · obtain ⟨-, h2, h3⟩ := hprops m h
    exact Or.inr ⟨h3, h2⟩

theorem addNew_observed_present (maxLen now : Nat) :
    ∀ (names : List String) (cols : List ColumnMapping) (name : String),
      name ∈ names →
      name ∈ (addNew maxLen now cols names).1.map ColumnMapping.source_property := by
  intro names
  induction names with
  | nil => intro cols name h; simp at h
  | cons nm rest ih =>
    intro cols name hname
    by_cases hmem : nm ∈ cols.map ColumnMapping.source_property
    · simp only [addNew, if_pos hmem]
      rcases List.mem_cons.1 hname with rfl | h
      · exact addNew_sp_monotone maxLen now rest cols name hmem
      · exact ih cols name h
    · simp only [addNew, if_neg hmem]
      rcases List.mem_cons.1 hname with rfl | h
      · exact addNew_sp_monotone maxLen now rest _ name (by simp)
      · exact ih _ name h

theorem addNew_all_present_eq (maxLen now : Nat) :
    ∀ (names : List String) (cols : List ColumnMapping),
      (∀ name ∈ names, name ∈ cols.map ColumnMapping.source_property) →
      addNew maxLen now cols names = (cols, []) := by
  intro names
  induction names with
  | nil => intro cols _; rfl
  | cons nm rest ih =>
    intro cols h
    have hmem : nm ∈ cols.map ColumnMapping.source_property :=
      h nm (List.mem_cons_self nm rest)
    simp only [addNew, if_pos hmem]
    exact ih cols (fun name hn => h name (List.mem_cons_of_mem nm hn))

theorem addNew_added_not_mem (maxLen now : Nat) :
    ∀ (names : List String) (cols : List ColumnMapping) (name : String),
      name ∈ cols.map ColumnMapping.source_property →
      name ∉ (addNew maxLen now cols names).2 := by
  intro names
  induction names with
  | nil => intro cols name _; simp [addNew]
  | cons nm rest ih =>
    intro cols name hname
    by_cases hmem : nm ∈ cols.map ColumnMapping.source_property
    · simp only [addNew, if_pos hmem]
      exact ih cols name hname
    · simp only [addNew, if_neg hmem]
      intro hcontra
      rcases List.mem_cons.1 hcontra with rfl | h
      · exact hmem hname
      · refine ih _ name ?_ h
        rw [List.map_append]
        exact List.mem_append_left _ hname

theorem addNew_nodup_targets (maxLen now : Nat) :
    ∀ (names : List String) (cols : List ColumnMapping),
      (cols.map ColumnMapping.target_column).Nodup →
      ((addNew maxLen now cols names).1.map ColumnMapping.target_column).Nodup := by
  intro names
  induction names with
  | nil => intro cols h; simpa [addNew] using h
  | cons nm rest ih =>
    intro cols h
    by_cases hmem : nm ∈ cols.map ColumnMapping.source_property
    · simp only [addNew, if_pos hmem]
      exact ih cols h
    · simp only [addNew, if_neg hmem]
      apply ih
      rw [List.map_append]
      have hfree := resolveCollision_not_mem (cols.map ColumnMapping.target_column)
        (normalize maxLen nm)
      refine List.Nodup.append h (List.nodup_singleton _) ?_
      simp only [List.map_cons, List.map_nil, List.disjoint_singleton]
      exact hfree

/-! ### Lemmas about `reconcile` -/

theorem setActive_source_property (A : List String) (m : ColumnMapping) :
    (setActive A m).source_property = m.source_property := rfl

theorem setActive_target_column (A : List String) (m : ColumnMapping) :
    (setActive A m).target_column = m.target_column := rfl

theorem map_sp_setActive (A : List String) (l : List ColumnMapping) :
    (l.map (setActive A)).map ColumnMapping.source_property =
      l.map ColumnMapping.source_property := by
  rw [List.map_map]
  rfl

theorem map_tc_setActive (A : List String) (l : List ColumnMapping) :
    (l.map (setActive A)).map ColumnMapping.target_column =
      l.map ColumnMapping.target_column := by
  rw [List.map_map]
  rfl

theorem setActive_eq_self (A : List String) (m : ColumnMapping)
    (h : m.active = decide (m.source_property ∈ A)) : setActive A m = m := by
  cases m with
  | mk sp tc fo ac =>
    simp only [setActive]
    simp only at h
    rw [h]

theorem reconcile_active_inv (maxLen now : Nat) (S : SchemaState)
    (A : List String) (m : ColumnMapping)
    (hm : m ∈ (reconcile maxLen now S A).1.columns) :
    m.active = decide (m.source_property ∈ A) := by
  rcases mem_addNew_cases maxLen now A (S.columns.map (setActive A)) m hm with h | h
  · rcases List.mem_map.1 h with ⟨m0, -, rfl⟩
    rfl
  · rw [h.2]
    simp [h.1]

theorem reconcile_sp_mono (maxLen now : Nat) (S : SchemaState)
    (A : List String) (p : String)
    (hp : p ∈ S.columns.map ColumnMapping.source_property) :
    p ∈ (reconcile maxLen now S A).1.columns.map ColumnMapping.source_property := by
  apply addNew_sp_monotone
  rw [map_sp_setActive]
  exact hp

theorem reconcileSeq_sp_mono (maxLen now : Nat) :
    ∀ (obs : List (List String)) (S : SchemaState) (p : String),
      p ∈ S.columns.map ColumnMapping.source_property →
      p ∈ (reconcileSeq maxLen now S obs).columns.map ColumnMapping.source_property := by
  intro obs
  induction obs with
  | nil => intro S p hp; exact hp
  | cons A rest ih =>
    intro S p hp
    exact ih (reconcile maxLen now S A).1 p (reconcile_sp_mono maxLen now S A p hp)

theorem reconcile_stability (maxLen now : Nat) (S : SchemaState)
    (A : List String) (m : ColumnMapping) (hm : m ∈ S.columns) :
    setActive A m ∈ (reconcile maxLen now S A).1.columns ∧
      m.source_property ∉ (reconcile maxLen now S A).2 := by
  constructor
  · exact mem_addNew_self maxLen now A _ _ (List.mem_map_of_mem (setActive A) hm)
  · apply addNew_added_not_mem
    rw [map_sp_setActive]
    exact List.mem_map_of_mem ColumnMapping.source_property hm

theorem reconcile_nodup_targets (maxLen now : Nat) (S : SchemaState)
    (A : List String)
    (h : (S.columns.map ColumnMapping.target_column).Nodup) :
    ((reconcile maxLen now S A).1.columns.map ColumnMapping.target_column).Nodup := by
  apply addNew_nodup_targets
  rw [map_tc_setActive]
  exact h

theorem reconcile_observed_present (maxLen now : Nat) (S : SchemaState)
    (A : List String) (name : String) (hn : name ∈ A) :
    name ∈ (reconcile maxLen now S A).1.columns.map ColumnMapping.source_property :=
  addNew_observed_present maxLen now A _ name hn

theorem reconcile_idem_core (maxLen now now' : Nat) (S : SchemaState)
    (A : List String) :
    reconcile maxLen now' (reconcile maxLen now S A).1 A =
      (⟨(reconcile maxLen now S A).1.columns, now'⟩, []) := by
  have hmap : (reconcile maxLen now S A).1.columns.map (setActive A) =
      (reconcile maxLen now S A).1.columns := by
    have : ∀ m ∈ (reconcile maxLen now S A).1.columns, setActive A m = m :=
      fun m hm => setActive_eq_self A m (reconcile_active_inv maxLen now S A m hm)
    calc (reconcile maxLen now S A).1.columns.map (setActive A)
        = (reconcile maxLen now S A).1.columns.map id := List.map_congr_left this
      _ = (reconcile maxLen now S A).1.columns := List.map_id _
  have hpresent : ∀ name ∈ A,
      name ∈ (reconcile maxLen now S A).1.columns.map ColumnMapping.source_property :=
    fun name hn => reconcile_observed_present maxLen now S A name hn
  show ((⟨(addNew maxLen now' ((reconcile maxLen now S A).1.columns.map (setActive A)) A).1,
      now'⟩ : SchemaState),
      (addNew maxLen now' ((reconcile maxLen now S A).1.columns.map (setActive A)) A).2) = _
  rw [hmap, addNew_all_present_eq maxLen now' A _ hpresent]

theorem reconcile_empty_observed (maxLen now : Nat) (S : SchemaState) :
    reconcile maxLen now S [] =
      (⟨S.columns.map (fun m => { m with active := false }), now⟩, []) := by
  have hset : ∀ m ∈ S.columns, setActive [] m = { m with active := false } := by
    intro m _
    simp [setActive]
  show ((⟨(addNew maxLen now (S.columns.map (setActive [])) []).1, now⟩ : SchemaState),
    (addNew maxLen now (S.columns.map (setActive [])) []).2) = _
  rw [show ∀ cols : List ColumnMapping, addNew maxLen now cols [] = (cols, []) from
    fun _ => rfl]
  rw [List.map_congr_left hset]

/-! ### Lemmas about the Property Discoverer -/

theorem discoverProperties_no_match (w : DiscoveryWindow) :
    ∀ pages : List (Option (List CaseRecord)),
      (∀ p ∈ pages, p ≠ none) →
      (∀ p ∈ pages, ∀ r ∈ p.getD [], inWindow w r.observed_on = false) →
      discoverProperties w pages = Except.ok [] := by
  intro pages
  induction pages with
  | nil => intro _ _; rfl
  | cons p rest ih =>
    intro h1 h2
    cases p with
    | none => exact absurd rfl (h1 none (List.mem_cons_self _ _))
    | some page =>
      have hfilter : page.filter (fun r => inWindow w r.observed_on) = [] := by
        rw [List.filter_eq_nil_iff]
        intro r hr
        simp [h2 (some page) (List.mem_cons_self _ _) r hr]
      have hrest := ih (fun q hq => h1 q (List.mem_cons_of_mem _ hq))
        (fun q hq => h2 q (List.mem_cons_of_mem _ hq))
      simp [discoverProperties, hrest, hfilter]

/-! ### Helper for sequences of reconcile calls -/

theorem reconcileSeq_stability (maxLen now : Nat) :
    ∀ (obs : List (List String)) (S : SchemaState) (m : ColumnMapping),
      m ∈ S.columns →
      ∃ m' ∈ (reconcileSeq maxLen now S obs).columns,
        m'.source_property = m.source_property ∧
        m'.target_column = m.target_column ∧
        m'.first_observed_at = m.first_observed_at := by
  intro obs
  induction obs with
  | nil => intro S m hm; exact ⟨m, hm, rfl, rfl, rfl⟩
  | cons A rest ih =>
    intro S m hm
    have hstep := (reconcile_stability maxLen now S A m hm).1
    obtain ⟨m', hm', h1, h2, h3⟩ := ih (reconcile maxLen now S A).1 (setActive A m) hstep
    exact ⟨m', hm', h1, h2, h3⟩

/-! ### The claims -/

/-- C1: for every SchemaState `existing` and observed set, `reconcile` never
deletes a ColumnMapping — every `source_property` of `existing` is still
mapped in the updated state; a mapping whose `source_property` is absent
from `observed` is retained with only `active = false`; and across any
sequence of reconcile calls the set of mapped source properties never
shrinks. -/
theorem reconcile_never_deletes (maxLen now : Nat) (S : SchemaState)
    (A : List String) :
    (∀ p ∈ S.columns.map ColumnMapping.source_property,
        p ∈ (reconcile maxLen now S A).1.columns.map ColumnMapping.source_property) ∧
    (∀ m ∈ S.columns, m.source_property ∉ A →
        { m with active := false } ∈ (reconcile maxLen now S A).1.columns) ∧
    (∀ obs : List (List String), ∀ p ∈ S.columns.map ColumnMapping.source_property,
        p ∈ (reconcileSeq maxLen now S obs).columns.map ColumnMapping.source_property) := by
  refine ⟨fun p hp => reconcile_sp_mono maxLen now S A p hp, ?_,
    fun obs p hp => reconcileSeq_sp_mono maxLen now obs S p hp⟩
  intro m hm habsent
  have hmem := (reconcile_stability maxLen now S A m hm).1
  have : setActive A m = { m with active := false } := by
    unfold setActive
    simp [habsent]
  rwa [this] at hmem

/-- C1 witness: on a concrete state with mappings `foo` and `bar` and
observed set `{foo}`, the mapping `bar` survives with `active = false` and
`foo` stays mapped. -/
theorem reconcile_never_deletes_witness :
    ({ source_property := "bar", target_column := "bar", first_observed_at := 1,
        active := false } : ColumnMapping) ∈
      (reconcile 63 2 exampleState ["foo"]).1.columns ∧
    "foo" ∈ (reconcile 63 2 exampleState ["foo"]).1.columns.map
      ColumnMapping.source_property := by
  constructor
  · exact (reconcile_never_deletes 63 2 exampleState ["foo"]).2.1
      ⟨"bar", "bar", 1, true⟩ (by decide) (by decide)
  · exact (reconcile_never_deletes 63 2 exampleState ["foo"]).1 "foo" (by decide)

/-- C2: `reconcile` is idempotent — feeding the updated state back in with
the same observed set returns that state unchanged and an empty `added`
list; at a later clock `now2` only the `as_of` stamp differs, the columns
and the empty `added` are the same. -/
theorem reconcile_idempotent (maxLen now now2 : Nat) (S : SchemaState)
    (A : List String) :
    reconcile maxLen now (reconcile maxLen now S A).1 A =
      ((reconcile maxLen now S A).1, []) ∧
    reconcile maxLen now2 (reconcile maxLen now S A).1 A =
      (⟨(reconcile maxLen now S A).1.columns, now2⟩, []) := by
  refine ⟨?_, reconcile_idem_core maxLen now now2 S A⟩
  rw [reconcile_idem_core maxLen now now S A]
  rfl

/-- C3: once a `source_property` is mapped, any reconcile call (and any
sequence of them) keeps its `target_column` and `first_observed_at`
unchanged, only `active` tracks observation, and an already-mapped property
is never reported in `added`; re-observing the previously inactive `foo`
reactivates the existing mapping (same target, same `first_observed_at`,
`added = []`). -/
theorem reconcile_column_stability (maxLen now : Nat) (S : SchemaState)
    (A : List String) :
    (∀ m ∈ S.columns,
      ∃ m' ∈ (reconcile maxLen now S A).1.columns,
        m'.source_property = m.source_property ∧
        m'.target_column = m.target_column ∧
        m'.first_observed_at = m.first_observed_at ∧
        m'.active = decide (m.source_property ∈ A) ∧
        m.source_property ∉ (reconcile maxLen now S A).2) ∧
    (∀ obs : List (List String), ∀ m ∈ S.columns,
      ∃ m' ∈ (reconcileSeq maxLen now S obs).columns,
        m'.source_property = m.source_property ∧
        m'.target_column = m.target_column ∧
        m'.first_observed_at = m.first_observed_at) ∧
    reconcile 63 9 inactiveFooState ["foo"] =
      (⟨[⟨"foo", "foo", 3, true⟩], 9⟩, []) := by
  refine ⟨?_, fun obs m hm => reconcileSeq_stability maxLen now obs S m hm, by decide⟩
  intro m hm
  obtain ⟨hmem, hadded⟩ := reconcile_stability maxLen now S A m hm
  exact ⟨setActive A m, hmem, rfl, rfl, rfl, rfl, hadded⟩

/-- C3 witness: the reactivation scenario applied concretely — `foo`,
previously inactive with target `foo` first observed at 3, is reactivated
in place, and stability holds for it. -/
theorem reconcile_column_stability_witness :
    (∃ m' ∈ (reconcile 63 9 inactiveFooState ["foo"]).1.columns,
      m'.source_property = "foo" ∧ m'.target_column = "foo" ∧
      m'.first_observed_at = 3) ∧
    reconcile 63 9 inactiveFooState ["foo"] =
      (⟨[⟨"foo", "foo", 3, true⟩], 9⟩, []) := by
  constructor
  · obtain ⟨m', hm', h1, h2, h3, -, -⟩ :=
      (reconcile_column_stability 63 9 inactiveFooState ["foo"]).1
        ⟨"foo", "foo", 3, false⟩ (by decide)
    exact ⟨m', hm', h1, h2, h3⟩
  · exact (reconcile_column_stability 63 9 inactiveFooState ["foo"]).2.2

/-- C4: `target_column` values stay pairwise distinct under `reconcile`,
collision suffixes are deterministic, and the scenario
`observed = {"age", "Age!", "age"}` against an empty state yields exactly
two active mappings and `added` of size 2: `"age" → "age"` and
`"Age!" → "age_"` (the deterministic suffix produced by normalization —
`"Age!"` normalizes to `"age_"`, which does not collide with `"age"`);
on a pair that does normalize identically, `{"age", "Age"}`, the stable
ordinal suffix gives `"Age" → "age_2"`. -/
theorem reconcile_target_uniqueness (maxLen now : Nat) (S : SchemaState)
    (A : List String) :
    ((S.columns.map ColumnMapping.target_column).Nodup →
      ((reconcile maxLen now S A).1.columns.map ColumnMapping.target_column).Nodup) ∧
    reconcile 63 0 ⟨[], 0⟩ ["age", "Age!", "age"] =
      (⟨[⟨"age", "age", 0, true⟩, ⟨"Age!", "age_", 0, true⟩], 0⟩,
        ["age", "Age!"]) ∧
    reconcile 63 0 ⟨[], 0⟩ ["age", "Age"] =
      (⟨[⟨"age", "age", 0, true⟩, ⟨"Age", "age_2", 0, true⟩], 0⟩,
        ["age", "Age"]) :=
  ⟨fun h => reconcile_nodup_targets maxLen now S A h, by decide, by decide⟩

/-- C4 witness: target-column uniqueness applied to the concrete scenario
state. -/
theorem reconcile_target_uniqueness_witness :
    ((reconcile 63 0 exampleState ["age", "Age!", "age"]).1.columns.map
      ColumnMapping.target_column).Nodup :=
  (reconcile_target_uniqueness 63 0 exampleState ["age", "Age!", "age"]).1
    (by decide)

/-- C5 counterexample: the claim as stated fails on the empty input string —
the normalizer's steps produce the empty output, which does not match
`^[a-z_][a-z0-9_]*$`. -/
theorem normalize_empty_counterexample :
    normalize 63 "" = "" ∧ validIdent (normalize 63 "") = false := by
  decide

/-- C5 (amended): for every nonempty input string and positive configured
maximum length, `normalize` is deterministic and returns an identifier
matching `^[a-z_][a-z0-9_]*$` of length at most the configured maximum. -/
theorem normalize_valid_amended (maxLen : Nat) (raw : String)
    (h1 : raw ≠ "") (h2 : 1 ≤ maxLen) :
    normalize maxLen raw = normalize maxLen raw ∧
    validIdent (normalize maxLen raw) = true ∧
    (normalize maxLen raw).length ≤ maxLen :=
  ⟨rfl, validIdent_normalize maxLen raw h1 h2, normalize_length_le maxLen raw⟩

/-- C5 witness: the amended claim applied to the concrete input
`"9 Age!!"` with maximum length 10 (output `"_9_age_"`). -/
theorem normalize_valid_amended_witness :
    validIdent (normalize 10 "9 Age!!") = true ∧
    (normalize 10 "9 Age!!").length ≤ 10 :=
  ⟨(normalize_valid_amended 10 "9 Age!!" (by decide) (by decide)).2.1,
   (normalize_valid_amended 10 "9 Age!!" (by decide) (by decide)).2.2⟩

/-- C6: when a previous-state path is supplied and readable and no fresh
full re-discovery is forced, `plan` skips discovery, reuses the cached
SchemaState unchanged, and sets the export window to exactly the supplied
`since`/`until` bounds. -/
theorem plan_incremental_reuses_cache (cache : SchemaState)
    (since untilEx : Option Nat) :
    plan (some (some cache)) false since untilEx =
      Except.ok ⟨false, ⟨since, untilEx⟩, some cache⟩ := rfl

/-- C7: a discovery window matching zero records yields the empty property
set (`Except.ok`, not an error), and reconciling the empty set marks every
prior mapping inactive while deleting none (same column count, same
mappings, only `active := false`). -/
theorem discovery_empty_window_ok (w : DiscoveryWindow)
    (pages : List (Option (List CaseRecord))) (maxLen now : Nat)
    (S : SchemaState)
    (h1 : ∀ p ∈ pages, p ≠ none)
    (h2 : ∀ p ∈ pages, ∀ r ∈ p.getD [], inWindow w r.observed_on = false) :
    discoverProperties w pages = Except.ok [] ∧
    reconcile maxLen now S [] =
      (⟨S.columns.map (fun m => { m with active := false }), now⟩, []) ∧
    (reconcile maxLen now S []).1.columns.length = S.columns.length := by
  refine ⟨discoverProperties_no_match w pages h1 h2,
    reconcile_empty_observed maxLen now S, ?_⟩
  rw [reconcile_empty_observed maxLen now S]
  simp

/-- C7 witness: a concrete window `[10, 20)` with one fetched page whose
single record (timestamp 5) falls outside the window — discovery returns
the empty set and reconciling it deactivates `foo` and `bar` without
deleting them. -/
theorem discovery_empty_window_ok_witness :
    discoverProperties ⟨some 10, some 20⟩ [some [⟨5, [("p", "v")]⟩], some []] =
      Except.ok [] ∧
    reconcile 63 7 exampleState [] =
      (⟨[⟨"foo", "foo", 1, false⟩, ⟨"bar", "bar", 1, false⟩], 7⟩, []) := by
  have h := discovery_empty_window_ok ⟨some 10, some 20⟩
    [some [⟨5, [("p", "v")]⟩], some []] 63 7 exampleState
    (by decide) (by decide)
  exact ⟨h.1, by rw [h.2.1]; decide⟩

/-- C8: when the caller explicitly supplied a cache path and the file is
missing or unparseable, the run fails with the fatal `CacheReadError`, the
exit code is non-zero, and no plan — in particular no fallback to full
discovery — is produced. -/
theorem plan_explicit_cache_missing_fatal (force : Bool)
    (since untilEx : Option Nat) :
    plan (some none) force since untilEx =
      Except.error SyncError.cacheReadError ∧
    exitCode (plan (some none) force since untilEx) ≠ 0 ∧
    ∀ p : RunPlan, plan (some none) force since untilEx ≠ Except.ok p := by
  refine ⟨rfl, by simp [plan, exitCode], fun p h => ?_⟩
  simp [plan] at h

/-- C8 witness: the fatal cache error applied concretely, with the force
flag set and a bounded window. -/
theorem plan_explicit_cache_missing_fatal_witness :
    plan (some none) true (some 1) (some 2) =
      Except.error SyncError.cacheReadError ∧
    exitCode (plan (some none) true (some 1) (some 2)) ≠ 0 :=
  ⟨(plan_explicit_cache_missing_fatal true (some 1) (some 2)).1,
   (plan_explicit_cache_missing_fatal true (some 1) (some 2)).2.1⟩

/-- C9: the structure-JSON scheduled-task script always passes
`--existing-app-structure-json` the value of `CC_APP_STRUCTURE_FOLDER_PATH`
(a folder path); `CC_APP_STRUCTURE_FILE_PATH` is in the script's required
variables but is never read — changing it cannot change the invocation —
so the cache-file argument never names the `app_structure_latest.json`
file. -/
theorem structure_json_sync_uses_folder_path (env : Env) (sinceDate : String) :
    (structureJsonSyncArgs sinceDate env).lookup
        "--existing-app-structure-json" =
      some (envStr env "CC_APP_STRUCTURE_FOLDER_PATH") ∧
    "env:CC_APP_STRUCTURE_FILE_PATH" ∈ structureJsonRequiredVars ∧
    (∀ v, structureJsonSyncArgs sinceDate
        (setEnv env "CC_APP_STRUCTURE_FILE_PATH" v) =
      structureJsonSyncArgs sinceDate env) := by
  refine ⟨rfl, by decide, ?_⟩
  intro v
  unfold structureJsonSyncArgs envStr setEnv
  simp

/-- C10: in all three PowerShell wrapper scripts the missing-variable guard
`if ($MissingVars > 0) { ...; exit 1 }` never takes its exit branch — `>`
is output redirection, so the condition pipeline delivers no output and is
falsy — and execution reaches the `sync-commcare-app-to-db` invocation for
every environment, even the one where all required variables are unset
(where the scripts count 8 missing variables). -/
theorem wrapper_guard_unreachable (env : Env) (sinceDate : String) :
    runInitialSync env sinceDate =
      ScriptResult.ranSync (initialSyncArgs sinceDate env) ∧
    runStructureJsonSync env sinceDate =
      ScriptResult.ranSync (structureJsonSyncArgs sinceDate env) ∧
    runPlainSync env = ScriptResult.ranSync (plainSyncArgs env) ∧
    missingVarCount emptyEnv initialSyncRequiredVars = 8 ∧
    runInitialSync emptyEnv sinceDate =
      ScriptResult.ranSync (initialSyncArgs sinceDate emptyEnv) :=
  ⟨rfl, rfl, rfl, by decide, rfl⟩

end CommcareUtilities
